import Mathlib

/-!
Shallow embedding of the Forgy AI editor front-end (App.tsx, hooks/useGeminiLive.ts,
hooks/useSpeechRecognition.ts, services/geminiService.ts), with theorems checking the
natural-language specification against the code.
-/

namespace Forgy

/-! ## Data model (types.ts) -/

/-- Kind tag of a media version (`type: 'image' | 'video'` in types.ts). -/
inductive MediaKind where
  | image
  | video
deriving DecidableEq, Repr

/-- `MediaVersion` from types.ts: image payload as a data URI (`src`), the prompt
that produced it, and a kind tag. -/
structure MediaVersion where
  src : String
  prompt : String
  type : MediaKind
deriving DecidableEq, Repr

/-- `Session` from types.ts: identifier, ordered versions, ordered transcript lines,
current index into versions. -/
structure Session where
  id : String
  versions : List MediaVersion
  transcript : List String
  currentIndex : Nat
deriving DecidableEq, Repr

/-! ## Session-list operations (App.tsx) -/

/-- `updateSession` in App.tsx: if an active session id is set, map over the session
list replacing the session whose id matches by `updater s`; otherwise leave the list
alone. -/
def updateSession (sessions : List Session) (activeId : Option String)
    (updater : Session → Session) : List Session :=
  match activeId with
  | none => sessions
  | some i => sessions.map (fun s => if s.id = i then updater s else s)

/-- The updater passed to `updateSession` by `handleGenerate` on a successful edit
(App.tsx lines 375-379): append a new version carrying the result data URI, the
prompt, and kind `image`, and set `currentIndex` to the old `versions.length`. -/
def editUpdater (resultUrl promptStr : String) (s : Session) : Session :=
  { s with
    versions := s.versions ++ [{ src := resultUrl, prompt := promptStr, type := .image }],
    currentIndex := s.versions.length }

/-- Lookup of the active session, as `sessions.find(s => s.id === activeSessionId)`
in App.tsx. -/
def findActive (sessions : List Session) (activeId : Option String) : Option Session :=
  activeId.bind fun i => sessions.find? (fun s => s.id == i)

/-- `handleGenerate` in App.tsx, with the outcome of the `editImage` vendor call made
explicit as an `Except`. Returns the new session list, the error banner (text and
clear delay in ms) if any, and whether a console error was logged. When no active
session exists it returns `{ error: "No session" }` without touching anything; on a
successful edit it applies `editUpdater` through `updateSession`; on a thrown edit it
leaves the sessions alone, raises the transient banner and logs to the console. -/
def handleGenerate (sessions : List Session) (activeId : Option String)
    (editResult : Except String String) (promptStr : String) :
    List Session × Option (String × Nat) × Bool :=
  match findActive sessions activeId with
  | none => (sessions, none, false)
  | some _ =>
    match editResult with
    | .ok resultUrl =>
        (updateSession sessions activeId (editUpdater resultUrl promptStr), none, false)
    | .error _ =>
        (sessions, some ("Generation failed. Please try again.", 3000), true)

/-- The updater passed to `updateSession` by the timeline buttons in App.tsx
(`updateSession(s => ({...s, currentIndex: i}))`). -/
def setIndexUpdater (i : Nat) (s : Session) : Session :=
  { s with currentIndex := i }

/-- The session-list update performed by `handleTurnComplete` in App.tsx: append a
`**You:**` line when the user transcript is nonempty and an `**AI:**` line when the
AI transcript is nonempty, to the active session's transcript. -/
def turnCompleteUpdater (user ai : String) (s : Session) : Session :=
  { s with
    transcript := s.transcript
      ++ (if user = "" then [] else ["**You:** " ++ user])
      ++ (if ai = "" then [] else ["**AI:** " ++ ai]) }

/-- `handleTurnComplete` in App.tsx: no-op when no session is active, otherwise map
the `turnCompleteUpdater` over the session whose id matches. -/
def handleTurnComplete (sessions : List Session) (activeId : Option String)
    (user ai : String) : List Session :=
  match activeId with
  | none => sessions
  | some i => sessions.map (fun s => if s.id = i then turnCompleteUpdater user ai s else s)

/-- The fresh session built by `handleImageUpload` in App.tsx from the uploaded
file's data URI: a single version with prompt `Original` and kind `image`, an empty
transcript and `currentIndex` 0. -/
def newUploadSession (newId base64 : String) : Session :=
  { id := newId,
    versions := [{ src := base64, prompt := "Original", type := .image }],
    transcript := [],
    currentIndex := 0 }

/-- `handleImageUpload` in App.tsx, with the outcome of `fileToBase64` made explicit
as an `Except`. On a successful read it appends the fresh session and returns the
new active session id; on a failed read it only logs to the console (third
component) and changes nothing. -/
def handleImageUpload (sessions : List Session) (readResult : Except String String)
    (newId : String) : List Session × Option String × Bool :=
  match readResult with
  | .ok base64 => (sessions ++ [newUploadSession newId base64], some newId, false)
  | .error _ => (sessions, none, true)

/-! ## Whole-application session-list steps (App.tsx)

Every place App.tsx calls `setSessions` or `setActiveSessionId` is captured by one
constructor; all remaining handlers leave the session list untouched. -/

/-- The session-list-relevant state of the App component. -/
structure AppState where
  sessions : List Session
  activeId : Option String
deriving Repr

/-- One user/system-visible operation of App.tsx that may touch the session list or
the active id: a successful or failed upload, a successful or failed edit, a
completed transcript turn, a timeline click, a session-tab click, or the header's
new-session button (`setActiveSessionId(null)`). -/
inductive AppOp where
  | upload (base64 newId : String)
  | uploadFail
  | editSuccess (resultUrl promptStr : String)
  | editFail
  | turnComplete (user ai : String)
  | timelineClick (i : Nat)
  | selectSession (id : String)
  | newButton

/-- The effect of each App.tsx operation on the session list and the active id,
read off the corresponding handler. -/
def applyOp (st : AppState) : AppOp → AppState
  | .upload base64 newId =>
      let r := handleImageUpload st.sessions (.ok base64) newId
      { sessions := r.1, activeId := r.2.1 }
  | .uploadFail => st
  | .editSuccess resultUrl promptStr =>
      { st with sessions :=
          (handleGenerate st.sessions st.activeId (.ok resultUrl) promptStr).1 }
  | .editFail =>
      { st with sessions :=
          (handleGenerate st.sessions st.activeId (.error "fail") "").1 }
  | .turnComplete user ai =>
      { st with sessions := handleTurnComplete st.sessions st.activeId user ai }
  | .timelineClick i =>
      { st with sessions := updateSession st.sessions st.activeId (setIndexUpdater i) }
  | .selectSession i => { st with activeId := some i }
  | .newButton => { st with activeId := none }

/-- Running a sequence of App.tsx operations from a state. -/
def runOps (st : AppState) (ops : List AppOp) : AppState :=
  ops.foldl applyOp st

/-! ## Live-session audio playback scheduling (hooks/useGeminiLive.ts)

The `onmessage` handler schedules each decoded audio buffer at
`start = Math.max(nextStartTimeRef.current, ctx.currentTime)` and then advances
`nextStartTimeRef.current = start + buffer.duration`. Times are modelled as
rationals; a chunk is the pair (output context's `currentTime` when the chunk is
processed, decoded buffer's `duration`). -/

/-- The playback-scheduling state: the `nextStartTimeRef` watermark and the list of
(start, duration) playback intervals scheduled so far. -/
structure AudioSched where
  nextStartTime : ℚ
  intervals : List (ℚ × ℚ)
deriving DecidableEq

/-- Scheduling of one incoming audio chunk by the `onmessage` handler
(useGeminiLive.ts lines 126 and 135-136): the start time is the max of the
watermark and the context's current time, the interval is scheduled there, and the
watermark advances to start plus the buffer's duration. -/
def processChunk (st : AudioSched) (c : ℚ × ℚ) : AudioSched :=
  let start := max st.nextStartTime c.1
  { nextStartTime := start + c.2, intervals := st.intervals ++ [(start, c.2)] }

/-- Scheduling a whole sequence of chunks of one live session, starting from the
session's initial state (`nextStartTimeRef.current = 0`, nothing scheduled). -/
def runChunks (st : AudioSched) (chunks : List (ℚ × ℚ)) : AudioSched :=
  chunks.foldl processChunk st

/-- Consecutive scheduled intervals never overlap: each starts no earlier than the
previous one ends. -/
def noOverlap (l : List (ℚ × ℚ)) : Prop :=
  l.Chain' fun p q => p.1 + p.2 ≤ q.1

/-- Consecutive scheduled intervals abut exactly: each starts exactly where the
previous one ends (no overlap and no gap). -/
def exactlyAbuts (l : List (ℚ × ℚ)) : Prop :=
  l.Chain' fun p q => p.1 + p.2 = q.1

/-- The context clock never overtakes the watermark: when each chunk is processed,
the output context's current time is at most the current watermark. -/
def ctxBehindWatermark : AudioSched → List (ℚ × ℚ) → Prop
  | _, [] => True
  | st, c :: rest => c.1 ≤ st.nextStartTime ∧ ctxBehindWatermark (processChunk st c) rest

/-- Invariant carried along a run: the scheduled intervals never overlap and the
watermark is at or after the end of the last scheduled interval. -/
def schedInv (st : AudioSched) : Prop :=
  noOverlap st.intervals ∧ ∀ p ∈ st.intervals.getLast?, p.1 + p.2 ≤ st.nextStartTime

/-- Tight variant of `schedInv`: intervals abut exactly and the watermark equals the
end of the last scheduled interval. -/
def schedInvTight (st : AudioSched) : Prop :=
  exactlyAbuts st.intervals ∧ ∀ p ∈ st.intervals.getLast?, p.1 + p.2 = st.nextStartTime

theorem processChunk_schedInv (st : AudioSched) (c : ℚ × ℚ) (h : schedInv st) :
    schedInv (processChunk st c) := by
  obtain ⟨h1, h2⟩ := h
  constructor
  · refine (List.chain'_append).2 ⟨h1, List.chain'_singleton _, ?_⟩
    intro x hx y hy
    simp only [List.head?_cons, Option.mem_def, Option.some.injEq] at hy
    subst hy
    exact le_trans (h2 x hx) (le_max_left _ _)
  · intro p hp
    simp only [processChunk, List.getLast?_concat,
      Option.mem_def, Option.some.injEq] at hp ⊢
    subst hp
    rfl

theorem runChunks_schedInv (chunks : List (ℚ × ℚ)) (st : AudioSched)
    (h : schedInv st) : schedInv (runChunks st chunks) := by
  induction chunks generalizing st with
  | nil => exact h
  | cons c rest ih => exact ih (processChunk st c) (processChunk_schedInv st c h)

theorem processChunk_schedInvTight (st : AudioSched) (c : ℚ × ℚ)
    (hc : c.1 ≤ st.nextStartTime) (h : schedInvTight st) :
    schedInvTight (processChunk st c) := by
  obtain ⟨h1, h2⟩ := h
  have hstart : max st.nextStartTime c.1 = st.nextStartTime := max_eq_left hc
  constructor
  · refine (List.chain'_append).2 ⟨h1, List.chain'_singleton _, ?_⟩
    intro x hx y hy
    simp only [List.head?_cons, Option.mem_def, Option.some.injEq] at hy
    subst hy
    simpa [hstart] using h2 x hx
  · intro p hp
    simp only [processChunk, List.getLast?_concat,
      Option.mem_def, Option.some.injEq] at hp ⊢
    subst hp
    rfl

theorem runChunks_schedInvTight (chunks : List (ℚ × ℚ)) (st : AudioSched)
    (hc : ctxBehindWatermark st chunks) (h : schedInvTight st) :
    schedInvTight (runChunks st chunks) := by
  induction chunks generalizing st with
  | nil => exact h
  | cons c rest ih =>
      exact ih (processChunk st c) hc.2 (processChunk_schedInvTight st c hc.1 h)

/-! ## Live-session teardown (hooks/useGeminiLive.ts, stopSession) -/

/-- Externally visible teardown actions issued by `stopSession`. -/
inductive LiveAction where
  | closeVendorSession
  | stopTrack (t : Nat)
  | disconnectSourceNode
  | disconnectProcessorNode
  | closeInputCtx
  | closeOutputCtx
  | stopAudioSource (s : Nat)
deriving DecidableEq, Repr

/-- The mutable refs and state of the `useGeminiLive` hook that `stopSession`
touches: the vendor session promise, the microphone stream (with its tracks), the
source and processor audio nodes, the two audio contexts, the set of
still-scheduled playback sources, the playback watermark, the interim transcript
shown through `onInterimTranscript`, and the `isLive` flag. -/
structure LiveState where
  sessionOpen : Bool
  micStream : Option (List Nat)
  sourceNode : Bool
  processorNode : Bool
  inputCtx : Bool
  outputCtx : Bool
  audioSources : List Nat
  nextStartTime : ℚ
  interim : String
  isLive : Bool
deriving DecidableEq

/-- `stopSession` (useGeminiLive.ts lines 43-59): close the vendor session if one
is open, stop every microphone track, disconnect the source and processor nodes,
close both audio contexts, stop every still-scheduled playback source and clear
the set, reset the watermark to 0, clear the interim transcript and drop the
`isLive` flag. Returns the new state and the actions issued. -/
def stopSession (st : LiveState) : LiveState × List LiveAction :=
  let acts :=
    (if st.sessionOpen then [LiveAction.closeVendorSession] else [])
    ++ (match st.micStream with
        | some ts => ts.map LiveAction.stopTrack
        | none => [])
    ++ (if st.sourceNode then [LiveAction.disconnectSourceNode] else [])
    ++ (if st.processorNode then [LiveAction.disconnectProcessorNode] else [])
    ++ (if st.inputCtx then [LiveAction.closeInputCtx] else [])
    ++ (if st.outputCtx then [LiveAction.closeOutputCtx] else [])
    ++ st.audioSources.map LiveAction.stopAudioSource
  ({ sessionOpen := false, micStream := none, sourceNode := false,
     processorNode := false, inputCtx := false, outputCtx := false,
     audioSources := [], nextStartTime := 0, interim := "", isLive := false }, acts)

/-- The connection's `onclose` callback (useGeminiLive.ts line 147) just invokes
`stopSession`. -/
def oncloseHandler (st : LiveState) : LiveState × List LiveAction :=
  stopSession st

/-- The connection's `onerror` callback (useGeminiLive.ts line 148) just invokes
`stopSession`. -/
def onerrorHandler (st : LiveState) : LiveState × List LiveAction :=
  stopSession st

/-! ## Speech-recognition hook (hooks/useSpeechRecognition.ts)

The hook keeps a React `isListening` state mirrored into `isListeningRef` (the
guard flag), auto-restarts the recognizer from `onend` through a 250 ms
`setTimeout` whose callback re-checks the flag, and clears the listening state on
a fatal `onerror`. The mirror effect is modelled as synchronous. -/

/-- The restart-relevant state of the `useSpeechRecognition` hook: the
`isListening` React state, its `isListeningRef` mirror, the delays (ms) of restart
timers scheduled but not yet fired, and the number of recognizer restarts issued
so far. -/
structure RecState where
  isListening : Bool
  listeningRef : Bool
  pendingTimers : List Nat
  restartCount : Nat
deriving DecidableEq, Repr

/-- The events that drive the hook: the two exported controls, the recognizer's
`onend` and `onerror` callbacks, and the firing of a previously scheduled restart
timer. -/
inductive RecEvent where
  | startListening
  | stopListening
  | onEnd
  | timerFire
  | onError (fatal : Bool)
deriving DecidableEq, Repr

/-- One step of the hook, read off useSpeechRecognition.ts:
`startListening` (lines 144-151) starts the recognizer and raises the flag unless
already listening; `stopListening` (lines 153-159) clears `isListeningRef` first,
stops the recognizer and clears `isListening`; `onend` (lines 107-121) schedules a
single 250 ms restart timer only when the flag is still up; a firing timer
re-checks the flag and restarts the recognizer only if it is still up; `onerror`
(lines 123-131) clears the listening state on a fatal `not-allowed` /
`service-not-allowed` error and does nothing otherwise. -/
def recStep (st : RecState) : RecEvent → RecState
  | .startListening =>
      if st.isListening then st
      else { st with isListening := true, listeningRef := true }
  | .stopListening =>
      if st.isListening then
        { st with listeningRef := false, isListening := false }
      else st
  | .onEnd =>
      if st.listeningRef then { st with pendingTimers := st.pendingTimers ++ [250] }
      else st
  | .timerFire =>
      match st.pendingTimers with
      | [] => st
      | _ :: rest =>
          if st.listeningRef then
            { st with pendingTimers := rest, restartCount := st.restartCount + 1 }
          else { st with pendingTimers := rest }
  | .onError fatal =>
      if fatal then { st with isListening := false, listeningRef := false } else st

/-- Running a sequence of hook events. -/
def recRun (st : RecState) (evts : List RecEvent) : RecState :=
  evts.foldl recStep st

/-! ## Base64 (services/geminiService.ts, encode/decode)

`encode` builds a binary string from the bytes with `String.fromCharCode` (the
identity on byte values) and applies the platform's `btoa`; `decode` applies
`atob` and reads the bytes back with `charCodeAt` (again the identity). Strings
are modelled as their lists of character codes, and `btoa`/`atob` as RFC 4648
base64 on those codes. -/

/-- The 64 character codes of the base64 alphabet A-Z, a-z, 0-9, `+`, `/`. -/
def b64Alphabet : List Nat :=
  (List.range 26).map (· + 65) ++ (List.range 26).map (· + 97)
    ++ (List.range 10).map (· + 48) ++ [43, 47]

/-- Character code of the sextet `n` (table lookup used by `btoa`). -/
def sextetToCode (n : Nat) : Nat :=
  b64Alphabet.getD n 0

/-- Sextet of a base64 character code (reverse lookup used by `atob`). -/
def codeToSextet (c : Nat) : Nat :=
  b64Alphabet.indexOf c

/-- The platform `btoa` on a byte sequence: 3-byte groups become 4 base64
characters; a trailing 1- or 2-byte group is padded with `=` (code 61). -/
def btoa : List Nat → List Nat
  | [] => []
  | [a] => [sextetToCode (a / 4), sextetToCode (a % 4 * 16), 61, 61]
  | [a, b] => [sextetToCode (a / 4), sextetToCode (a % 4 * 16 + b / 16),
               sextetToCode (b % 16 * 4), 61]
  | a :: b :: c :: rest =>
      sextetToCode (a / 4) :: sextetToCode (a % 4 * 16 + b / 16)
        :: sextetToCode (b % 16 * 4 + c / 64) :: sextetToCode (c % 64)
        :: btoa rest

/-- The platform `atob` on base64 character codes: each 4-character group yields
3 bytes, or 1 or 2 bytes when `=`-padded. -/
def atob : List Nat → List Nat
  | c1 :: c2 :: c3 :: c4 :: rest =>
      if c3 = 61 then
        [codeToSextet c1 * 4 + codeToSextet c2 / 16]
      else if c4 = 61 then
        [codeToSextet c1 * 4 + codeToSextet c2 / 16,
         codeToSextet c2 % 16 * 16 + codeToSextet c3 / 4]
      else
        (codeToSextet c1 * 4 + codeToSextet c2 / 16)
          :: (codeToSextet c2 % 16 * 16 + codeToSextet c3 / 4)
          :: (codeToSextet c3 % 4 * 64 + codeToSextet c4)
          :: atob rest
  | _ => []

/-- `encode` in geminiService.ts (lines 50-55): bytes to binary string (identity
on codes) then `btoa`. -/
def encode (bytes : List Nat) : List Nat :=
  btoa bytes

/-- `decode` in geminiService.ts (lines 42-48): `atob` then `charCodeAt` per
position (identity on codes). -/
def decode (base64 : List Nat) : List Nat :=
  atob base64

/-! ## createBlob (services/geminiService.ts, lines 57-65)

Audio samples are 32-bit floats in the source; a float32 sample times 32768 is
exactly representable as a double, so samples are modelled as rationals. -/

/-- JavaScript integer truncation toward zero (the `ToIntegerOrInfinity` step of
assigning a number to an `Int16Array` element). -/
def jsTrunc (q : ℚ) : Int :=
  if 0 ≤ q then ⌊q⌋ else ⌈q⌉

/-- The `Int16Array` element coercion: wrap modulo 2^16 into [-32768, 32767],
with no clamping. -/
def toInt16 (n : Int) : Int :=
  if n % 65536 < 32768 then n % 65536 else n % 65536 - 65536

/-- One sample conversion of `createBlob` (geminiService.ts line 60):
`int16[i] = data[i] * 32768` under `Int16Array` store semantics. -/
def createBlobSample (s : ℚ) : Int :=
  toInt16 (jsTrunc (s * 32768))

/-- The little-endian byte view of one stored `Int16Array` element, as the
`Uint8Array` over the same buffer sees it. -/
def int16ToBytes (v : Int) : List Nat :=
  [(v % 65536).toNat % 256, (v % 65536).toNat / 256]

/-- `createBlob` in geminiService.ts: convert every sample to a 16-bit signed
integer, serialize the buffer to bytes, base64-encode them, and attach the fixed
mime type. -/
def createBlob (data : List ℚ) : List Nat × String :=
  (encode (((data.map createBlobSample).map int16ToBytes).flatten),
   "audio/pcm;rate=16000")

/-- While the guard flag is down and `startListening` is not invoked, no event of
the hook restarts the recognizer and the flag stays down. -/
theorem recRun_no_restart (evts : List RecEvent) (st : RecState)
    (hflag : st.listeningRef = false)
    (hnostart : RecEvent.startListening ∉ evts) :
    (recRun st evts).restartCount = st.restartCount ∧
    (recRun st evts).listeningRef = false := by
  induction evts generalizing st with
  | nil => exact ⟨rfl, hflag⟩
  | cons e rest ih =>
      have hne : e ≠ RecEvent.startListening := fun h => hnostart (h ▸ List.mem_cons_self e rest)
      have hrest : RecEvent.startListening ∉ rest := fun h => hnostart (List.mem_cons_of_mem e h)
      have hstep : (recStep st e).restartCount = st.restartCount ∧
          (recStep st e).listeningRef = false := by
        cases e with
        | startListening => exact absurd rfl hne
        | stopListening => by_cases h : st.isListening <;> simp [recStep, h, hflag]
        | onEnd => simp [recStep, hflag]
        | timerFire =>
            cases h : st.pendingTimers with
            | nil => simp [recStep, h, hflag]
            | cons a tl => simp [recStep, h, hflag]
        | onError fatal => cases fatal <;> simp [recStep, hflag]
      have := ih (recStep st e) hstep.2 hrest
      exact ⟨by rw [show recRun st (e :: rest) = recRun (recStep st e) rest from rfl,
        this.1, hstep.1], by rw [show recRun st (e :: rest) = recRun (recStep st e) rest from rfl,
        this.2]⟩

/-! ## Theorems -/

/-- C1: a successful image edit appends exactly one new `MediaVersion` (result data
URI, producing prompt, kind `image`) to the end of the session's versions, sets
`currentIndex` to the index of that new version, and leaves every previously
existing version unchanged. -/
theorem c1_edit_appends_version (resultUrl promptStr : String) (s : Session) :
    (editUpdater resultUrl promptStr s).versions
        = s.versions ++ [{ src := resultUrl, prompt := promptStr, type := .image }] ∧
    (editUpdater resultUrl promptStr s).versions.length = s.versions.length + 1 ∧
    (editUpdater resultUrl promptStr s).currentIndex = s.versions.length ∧
    (editUpdater resultUrl promptStr s).versions.take s.versions.length = s.versions ∧
    (editUpdater resultUrl promptStr s).versions.getLast?
        = some { src := resultUrl, prompt := promptStr, type := .image } := by
  refine ⟨rfl, by simp [editUpdater], rfl, by simp [editUpdater], by simp [editUpdater]⟩

/-- C2 counterexample: the claim's "no gaps" part fails. In the session trace with
two chunks, the first arriving at context time 0 with duration 1 and the second at
context time 5 (the context clock having run past the watermark, durations
nonnegative, context times nondecreasing), the first buffer plays over [0, 1) but
the second is scheduled at 5, leaving a gap of silence. -/
theorem c2_gap_counterexample :
    (0:ℚ) ≤ 1 ∧ (0:ℚ) ≤ 5 ∧
    (runChunks ⟨0, []⟩ [((0:ℚ), (1:ℚ)), (5, 1)]).intervals = [(0, 1), (5, 1)] ∧
    ¬ exactlyAbuts (runChunks ⟨0, []⟩ [((0:ℚ), (1:ℚ)), (5, 1)]).intervals := by
  have h1 : processChunk ⟨0, []⟩ ((0:ℚ), (1:ℚ)) = ⟨1, [(0, 1)]⟩ := by
    simp [processChunk]
  have h2 : processChunk ⟨1, [((0:ℚ), (1:ℚ))]⟩ (5, 1) = ⟨6, [(0, 1), (5, 1)]⟩ := by
    simp only [processChunk]
    norm_num [max_eq_right]
  have hrun : runChunks ⟨0, []⟩ [((0:ℚ), (1:ℚ)), (5, 1)] = ⟨6, [(0, 1), (5, 1)]⟩ := by
    show processChunk (processChunk ⟨0, []⟩ (0, 1)) (5, 1) = _
    rw [h1, h2]
  refine ⟨by norm_num, by norm_num, by rw [hrun], ?_⟩
  rw [hrun]
  simp only [exactlyAbuts, List.chain'_cons, List.chain'_singleton, and_true]
  norm_num

/-- C2 (amended): each chunk's playback start is the max of the watermark and the
output context's current time and the watermark then advances to start plus the
buffer's duration; with nonnegative durations the watermark is monotonically
non-decreasing across chunks, consecutive scheduled intervals never overlap, and
they abut exactly (no gaps) provided the context clock never overtakes the
watermark — without that proviso a gap can occur (see the counterexample). -/
theorem c2_watermark_schedule :
    (∀ st c, processChunk st c
        = { nextStartTime := max st.nextStartTime c.1 + c.2,
            intervals := st.intervals ++ [(max st.nextStartTime c.1, c.2)] }) ∧
    (∀ (st : AudioSched) (c : ℚ × ℚ), 0 ≤ c.2 →
        st.nextStartTime ≤ (processChunk st c).nextStartTime) ∧
    (∀ chunks, noOverlap (runChunks ⟨0, []⟩ chunks).intervals) ∧
    (∀ chunks, ctxBehindWatermark ⟨0, []⟩ chunks →
        exactlyAbuts (runChunks ⟨0, []⟩ chunks).intervals) := by
  refine ⟨fun st c => rfl, fun st c h => ?_, fun chunks => ?_, fun chunks h => ?_⟩
  · calc st.nextStartTime ≤ max st.nextStartTime c.1 := le_max_left _ _
      _ ≤ max st.nextStartTime c.1 + c.2 := le_add_of_nonneg_right h
  · exact (runChunks_schedInv chunks ⟨0, []⟩ ⟨List.chain'_nil, by simp⟩).1
  · exact (runChunks_schedInvTight chunks ⟨0, []⟩ h ⟨List.chain'_nil, by simp⟩).1

/-- Witness for C2 (amended) on a concrete two-chunk trace where the context clock
stays behind the watermark: the intervals abut exactly. -/
theorem c2_watermark_schedule_witness :
    (0:ℚ) ≤ 2 ∧
    (⟨1, []⟩ : AudioSched).nextStartTime
        ≤ (processChunk ⟨1, []⟩ ((0:ℚ), (2:ℚ))).nextStartTime ∧
    ctxBehindWatermark ⟨0, []⟩ [((0:ℚ), (1:ℚ)), (1, 2)] ∧
    exactlyAbuts (runChunks ⟨0, []⟩ [((0:ℚ), (1:ℚ)), (1, 2)]).intervals := by
  have hcbw : ctxBehindWatermark ⟨0, []⟩ [((0:ℚ), (1:ℚ)), (1, 2)] := by
    simp only [ctxBehindWatermark, processChunk]
    norm_num
  exact ⟨by norm_num, c2_watermark_schedule.2.1 ⟨1, []⟩ (0, 2) (by norm_num),
    hcbw, c2_watermark_schedule.2.2.2 _ hcbw⟩

/-- C7: `stopSession` ends the live session completely: the vendor session is
closed when open, every microphone track is stopped, the source and processor
nodes are disconnected, both audio contexts are closed, every still-scheduled
playback source is stopped, and the resulting state has an empty source set,
watermark 0, cleared interim transcript and `isLive` false; the connection's
`onclose` and `onerror` callbacks are exactly `stopSession`. -/
theorem c7_stop_session_resets (st : LiveState) :
    (stopSession st).1
      = { sessionOpen := false, micStream := none, sourceNode := false,
          processorNode := false, inputCtx := false, outputCtx := false,
          audioSources := [], nextStartTime := 0, interim := "", isLive := false } ∧
    (st.sessionOpen = true → LiveAction.closeVendorSession ∈ (stopSession st).2) ∧
    (∀ ts, st.micStream = some ts →
        ∀ t ∈ ts, LiveAction.stopTrack t ∈ (stopSession st).2) ∧
    (st.sourceNode = true → LiveAction.disconnectSourceNode ∈ (stopSession st).2) ∧
    (st.processorNode = true → LiveAction.disconnectProcessorNode ∈ (stopSession st).2) ∧
    (st.inputCtx = true → LiveAction.closeInputCtx ∈ (stopSession st).2) ∧
    (st.outputCtx = true → LiveAction.closeOutputCtx ∈ (stopSession st).2) ∧
    (∀ s ∈ st.audioSources, LiveAction.stopAudioSource s ∈ (stopSession st).2) ∧
    oncloseHandler = stopSession ∧ onerrorHandler = stopSession := by
  refine ⟨rfl, ?_, ?_, ?_, ?_, ?_, ?_, ?_, rfl, rfl⟩
  · intro h; simp [stopSession, h]
  · intro ts h t ht; simp [stopSession, h]; tauto
  · intro h; simp [stopSession, h]
  · intro h; simp [stopSession, h]
  · intro h; simp [stopSession, h]
  · intro h; simp [stopSession, h]
  · intro s hs; simp [stopSession]; tauto

/-- Witness for C7 at a concrete fully-active live state. -/
theorem c7_stop_session_resets_witness :
    LiveAction.closeVendorSession
        ∈ (stopSession ⟨true, some [7], true, true, true, true, [3], 2, "hi", true⟩).2 ∧
    LiveAction.stopTrack 7
        ∈ (stopSession ⟨true, some [7], true, true, true, true, [3], 2, "hi", true⟩).2 ∧
    LiveAction.stopAudioSource 3
        ∈ (stopSession ⟨true, some [7], true, true, true, true, [3], 2, "hi", true⟩).2 ∧
    (stopSession ⟨true, some [7], true, true, true, true, [3], 2, "hi", true⟩).1.isLive
        = false := by
  have h := c7_stop_session_resets ⟨true, some [7], true, true, true, true, [3], 2, "hi", true⟩
  exact ⟨h.2.1 rfl, h.2.2.1 [7] rfl 7 (by simp), h.2.2.2.2.2.2.2.1 3 (by simp),
    by rw [h.1]⟩

/-- C4: when the `editImage` call throws, `handleGenerate` leaves the session list
(and hence every session's versions, currentIndex and transcript) entirely
unchanged, and surfaces the failure only as a transient banner cleared after a
fixed 3000 ms delay plus a console warning. -/
theorem c4_edit_failure_preserves_session (sessions : List Session)
    (activeId : Option String) (e promptStr : String) (sess : Session)
    (h : findActive sessions activeId = some sess) :
    (handleGenerate sessions activeId (.error e) promptStr).1 = sessions ∧
    (handleGenerate sessions activeId (.error e) promptStr).2.1
        = some ("Generation failed. Please try again.", 3000) ∧
    (handleGenerate sessions activeId (.error e) promptStr).2.2 = true := by
  simp [handleGenerate, h]

/-- Witness for C4 at a concrete one-session state. -/
theorem c4_edit_failure_preserves_session_witness :
    (handleGenerate [{ id := "1", versions := [], transcript := [], currentIndex := 0 }]
        (some "1") (.error "boom") "add a hat").1
      = [{ id := "1", versions := [], transcript := [], currentIndex := 0 }] ∧
    (handleGenerate [{ id := "1", versions := [], transcript := [], currentIndex := 0 }]
        (some "1") (.error "boom") "add a hat").2.1
      = some ("Generation failed. Please try again.", 3000) ∧
    (handleGenerate [{ id := "1", versions := [], transcript := [], currentIndex := 0 }]
        (some "1") (.error "boom") "add a hat").2.2 = true :=
  c4_edit_failure_preserves_session
    [{ id := "1", versions := [], transcript := [], currentIndex := 0 }]
    (some "1") "boom" "add a hat"
    { id := "1", versions := [], transcript := [], currentIndex := 0 } (by rfl)

/-- A fresh id is found (as the active session) at the end of the extended list. -/
theorem find_fresh_id_append (sessions : List Session) (s : Session)
    (h : ∀ t ∈ sessions, t.id ≠ s.id) :
    (sessions ++ [s]).find? (fun t => t.id == s.id) = some s := by
  induction sessions with
  | nil => simp
  | cons a tl ih =>
      have ha : (a.id == s.id) = false := by
        simpa using h a (by simp)
      simpa [List.find?, ha] using ih fun t ht => h t (by simp [ht])

/-- C6: a successfully read uploaded image yields exactly one new session appended
to the list, holding a single version whose src is the file's data URI with prompt
`Original` and kind `image`, an empty transcript and `currentIndex` 0; it becomes
the active session, and (its id being fresh) lookup of the active session displays
it. -/
theorem c6_upload_creates_session (sessions : List Session) (base64 newId : String)
    (hfresh : ∀ s ∈ sessions, s.id ≠ newId) :
    (handleImageUpload sessions (.ok base64) newId).1
        = sessions ++ [newUploadSession newId base64] ∧
    (handleImageUpload sessions (.ok base64) newId).2.1 = some newId ∧
    (newUploadSession newId base64).versions
        = [{ src := base64, prompt := "Original", type := .image }] ∧
    (newUploadSession newId base64).transcript = [] ∧
    (newUploadSession newId base64).currentIndex = 0 ∧
    findActive (handleImageUpload sessions (.ok base64) newId).1
        (handleImageUpload sessions (.ok base64) newId).2.1
        = some (newUploadSession newId base64) := by
  refine ⟨rfl, rfl, rfl, rfl, rfl, ?_⟩
  show (sessions ++ [newUploadSession newId base64]).find? (fun s => s.id == newId)
      = some (newUploadSession newId base64)
  exact find_fresh_id_append sessions (newUploadSession newId base64) hfresh

/-- Witness for C6 at a concrete state with one existing session. -/
theorem c6_upload_creates_session_witness :
    (handleImageUpload [{ id := "1", versions := [], transcript := [], currentIndex := 0 }]
        (.ok "data:image/png;base64,AAAA") "2").1
      = [{ id := "1", versions := [], transcript := [], currentIndex := 0 }]
        ++ [newUploadSession "2" "data:image/png;base64,AAAA"] ∧
    (handleImageUpload [{ id := "1", versions := [], transcript := [], currentIndex := 0 }]
        (.ok "data:image/png;base64,AAAA") "2").2.1 = some "2" ∧
    (newUploadSession "2" "data:image/png;base64,AAAA").versions
      = [{ src := "data:image/png;base64,AAAA", prompt := "Original", type := .image }] ∧
    (newUploadSession "2" "data:image/png;base64,AAAA").transcript = [] ∧
    (newUploadSession "2" "data:image/png;base64,AAAA").currentIndex = 0 ∧
    findActive (handleImageUpload
        [{ id := "1", versions := [], transcript := [], currentIndex := 0 }]
        (.ok "data:image/png;base64,AAAA") "2").1
      (handleImageUpload [{ id := "1", versions := [], transcript := [], currentIndex := 0 }]
        (.ok "data:image/png;base64,AAAA") "2").2.1
      = some (newUploadSession "2" "data:image/png;base64,AAAA") :=
  c6_upload_creates_session
    [{ id := "1", versions := [], transcript := [], currentIndex := 0 }]
    "data:image/png;base64,AAAA" "2" (by decide)

/-- An id-preserving per-session updater keeps the id list of `updateSession`
unchanged. -/
theorem map_id_updateSession (sessions : List Session) (activeId : Option String)
    (u : Session → Session) (hu : ∀ s, (u s).id = s.id) :
    (updateSession sessions activeId u).map Session.id = sessions.map Session.id := by
  cases activeId with
  | none => rfl
  | some i =>
      simp only [updateSession, List.map_map]
      refine List.map_congr_left fun s _ => ?_
      by_cases h : s.id = i <;> simp [h, hu]

/-- Every single App.tsx operation extends the id list of the session list on the
right (by nothing, or by the uploaded session's id). -/
theorem applyOp_id_extends (st : AppState) (op : AppOp) :
    ∃ tail, (applyOp st op).sessions.map Session.id
        = st.sessions.map Session.id ++ tail := by
  cases op with
  | upload base64 newId =>
      exact ⟨[newId], by simp [applyOp, handleImageUpload, newUploadSession]⟩
  | uploadFail => exact ⟨[], by simp [applyOp]⟩
  | editSuccess resultUrl promptStr =>
      refine ⟨[], ?_⟩
      simp only [applyOp, handleGenerate, List.append_nil]
      cases h : findActive st.sessions st.activeId with
      | none => rfl
      | some sess =>
          exact map_id_updateSession st.sessions st.activeId _ fun s => rfl
  | editFail =>
      refine ⟨[], ?_⟩
      simp only [applyOp, handleGenerate, List.append_nil]
      cases h : findActive st.sessions st.activeId with
      | none => rfl
      | some sess => rfl
  | turnComplete user ai =>
      refine ⟨[], ?_⟩
      simp only [applyOp, handleTurnComplete, List.append_nil]
      cases st.activeId with
      | none => rfl
      | some i =>
          simp only [List.map_map]
          refine List.map_congr_left fun s _ => ?_
          by_cases h : s.id = i <;> simp [h, turnCompleteUpdater]
  | timelineClick i =>
      refine ⟨[], ?_⟩
      simp only [applyOp, List.append_nil]
      exact map_id_updateSession st.sessions st.activeId (setIndexUpdater i) fun s => rfl
  | selectSession i => exact ⟨[], by simp [applyOp]⟩
  | newButton => exact ⟨[], by simp [applyOp]⟩

/-- C8: no operation ever removes a session: across any sequence of uploads, edits,
transcript turns, timeline clicks and session switches, the list of session ids of
the resulting state extends the original id list on the right, so every previously
created session remains present. -/
theorem c8_sessions_never_removed (st : AppState) (ops : List AppOp) :
    ∃ tail, (runOps st ops).sessions.map Session.id
        = st.sessions.map Session.id ++ tail := by
  induction ops generalizing st with
  | nil => exact ⟨[], by simp [runOps]⟩
  | cons op tl ih =>
      obtain ⟨t1, h1⟩ := applyOp_id_extends st op
      obtain ⟨t2, h2⟩ := ih (applyOp st op)
      refine ⟨t1 ++ t2, ?_⟩
      show (runOps (applyOp st op) tl).sessions.map Session.id = _
      rw [h2, h1, List.append_assoc]

/-- C3: after `stopListening` (which clears the guard flag before stopping the
recognizer), no later `onend` firing or pending timer ever restarts the
recognizer, as long as `startListening` is not invoked again; and a restart is
issued only under a raised flag — a timer firing under a lowered flag does not
restart, and an `onend` under a lowered flag schedules nothing. -/
theorem c3_no_restart_after_stop (st : RecState) (evts : List RecEvent)
    (hsync : st.listeningRef = st.isListening)
    (hnostart : RecEvent.startListening ∉ evts) :
    (recStep st .stopListening).listeningRef = false ∧
    (recRun (recStep st .stopListening) evts).restartCount = st.restartCount ∧
    (∀ s : RecState, s.listeningRef = false →
        (recStep s .timerFire).restartCount = s.restartCount) ∧
    (∀ s : RecState, s.listeningRef = false → recStep s .onEnd = s) := by
  have hstop : (recStep st .stopListening).listeningRef = false ∧
      (recStep st .stopListening).restartCount = st.restartCount := by
    by_cases h : st.isListening <;> simp [recStep, h, hsync]
  refine ⟨hstop.1, ?_, ?_, ?_⟩
  · rw [(recRun_no_restart evts _ hstop.1 hnostart).1, hstop.2]
  · intro s hs
    cases h : s.pendingTimers with
    | nil => simp [recStep, h]
    | cons a tl => simp [recStep, h, hs]
  · intro s hs
    simp [recStep, hs]

/-- Witness for C3: a listening state is stopped, then an `onend`, a timer firing
and a non-fatal error arrive; no restart is issued. -/
theorem c3_no_restart_after_stop_witness :
    (recStep ⟨true, true, [], 0⟩ .stopListening).listeningRef = false ∧
    (recRun (recStep ⟨true, true, [], 0⟩ .stopListening)
        [.onEnd, .timerFire, .onError false]).restartCount
      = (⟨true, true, [], 0⟩ : RecState).restartCount ∧
    (∀ s : RecState, s.listeningRef = false →
        (recStep s .timerFire).restartCount = s.restartCount) ∧
    (∀ s : RecState, s.listeningRef = false → recStep s .onEnd = s) :=
  c3_no_restart_after_stop ⟨true, true, [], 0⟩ [.onEnd, .timerFire, .onError false]
    rfl (by decide)

/-- C5: an unexpected recognizer termination while listening schedules exactly one
restart timer, with the single fixed 250 ms delay; a fatal permission error simply
clears the listening state, scheduling nothing and restarting nothing; a non-fatal
error does nothing; and across all events of the hook, only a timer firing can
issue a restart and only an `onend` under a raised flag can schedule a timer
(always one, always 250 ms). -/
theorem c5_single_fixed_delay_retry (st : RecState) :
    (st.listeningRef = true →
        recStep st .onEnd = { st with pendingTimers := st.pendingTimers ++ [250] }) ∧
    (recStep st (.onError true)
        = { st with isListening := false, listeningRef := false }) ∧
    (recStep st (.onError false) = st) ∧
    (∀ e, (recStep st e).restartCount ≠ st.restartCount → e = .timerFire) ∧
    (∀ e, (recStep st e).pendingTimers ≠ st.pendingTimers →
        (e = .onEnd ∧ st.listeningRef = true ∧
            (recStep st e).pendingTimers = st.pendingTimers ++ [250]) ∨
        e = .timerFire) := by
  refine ⟨fun h => by simp [recStep, h], by simp [recStep], by simp [recStep], ?_, ?_⟩
  · intro e h
    cases e with
    | startListening =>
        exact absurd (by by_cases hb : st.isListening <;> simp [recStep, hb]) h
    | stopListening =>
        exact absurd (by by_cases hb : st.isListening <;> simp [recStep, hb]) h
    | onEnd =>
        exact absurd (by by_cases hb : st.listeningRef <;> simp [recStep, hb]) h
    | timerFire => rfl
    | onError fatal => exact absurd (by cases fatal <;> simp [recStep]) h
  · intro e h
    cases e with
    | startListening =>
        exact absurd (by by_cases hb : st.isListening <;> simp [recStep, hb]) h
    | stopListening =>
        exact absurd (by by_cases hb : st.isListening <;> simp [recStep, hb]) h
    | onEnd =>
        by_cases hb : st.listeningRef
        · exact Or.inl ⟨rfl, hb, by simp [recStep, hb]⟩
        · exact absurd (by simp [recStep, hb]) h
    | timerFire => exact Or.inr rfl
    | onError fatal => exact absurd (by cases fatal <;> simp [recStep]) h

/-- Round-tripping a sextet through the alphabet table recovers it. -/
theorem codeToSextet_sextetToCode : ∀ n < 64, codeToSextet (sextetToCode n) = n := by
  decide

/-- No alphabet character is the `=` padding character (code 61). -/
theorem sextetToCode_ne_pad : ∀ n < 64, sextetToCode n ≠ 61 := by
  decide

/-- `atob` inverts `btoa` on byte sequences. -/
theorem atob_btoa : ∀ l : List Nat, (∀ x ∈ l, x < 256) → atob (btoa l) = l
  | [], _ => rfl
  | [a], h => by
      have ha : a < 256 := h a (by simp)
      have h1 : a / 4 < 64 := by omega
      have h2 : a % 4 * 16 < 64 := by omega
      show atob [sextetToCode (a / 4), sextetToCode (a % 4 * 16), 61, 61] = [a]
      simp only [atob, if_pos]
      rw [codeToSextet_sextetToCode _ h1, codeToSextet_sextetToCode _ h2]
      simp only [List.cons.injEq, and_true]
      omega
  | [a, b], h => by
      have ha : a < 256 := h a (by simp)
      have hb : b < 256 := h b (by simp)
      have h1 : a / 4 < 64 := by omega
      have h2 : a % 4 * 16 + b / 16 < 64 := by omega
      have h3 : b % 16 * 4 < 64 := by omega
      show atob [sextetToCode (a / 4), sextetToCode (a % 4 * 16 + b / 16),
          sextetToCode (b % 16 * 4), 61] = [a, b]
      simp only [atob]
      rw [if_neg (sextetToCode_ne_pad _ h3), if_pos trivial,
        codeToSextet_sextetToCode _ h1, codeToSextet_sextetToCode _ h2,
        codeToSextet_sextetToCode _ h3]
      simp only [List.cons.injEq, and_true]
      exact ⟨by omega, by omega⟩
  | a :: b :: c :: rest, h => by
      have ha : a < 256 := h a (by simp)
      have hb : b < 256 := h b (by simp)
      have hc : c < 256 := h c (by simp)
      have h1 : a / 4 < 64 := by omega
      have h2 : a % 4 * 16 + b / 16 < 64 := by omega
      have h3 : b % 16 * 4 + c / 64 < 64 := by omega
      have h4 : c % 64 < 64 := by omega
      have ih := atob_btoa rest fun x hx => h x (by simp [hx])
      show atob (sextetToCode (a / 4) :: sextetToCode (a % 4 * 16 + b / 16)
          :: sextetToCode (b % 16 * 4 + c / 64) :: sextetToCode (c % 64)
          :: btoa rest) = a :: b :: c :: rest
      simp only [atob]
      rw [if_neg (sextetToCode_ne_pad _ h3), if_neg (sextetToCode_ne_pad _ h4),
        codeToSextet_sextetToCode _ h1, codeToSextet_sextetToCode _ h2,
        codeToSextet_sextetToCode _ h3, codeToSextet_sextetToCode _ h4, ih]
      simp only [List.cons.injEq, and_true]
      exact ⟨by omega, by omega, by omega⟩

/-- Witness for C5: at a listening state with no pending timer, `onend` schedules
the single 250 ms timer and a fatal error clears the listening state. -/
theorem c5_single_fixed_delay_retry_witness :
    recStep ⟨true, true, [], 0⟩ .onEnd
      = { (⟨true, true, [], 0⟩ : RecState) with pendingTimers := [] ++ [250] } ∧
    recStep ⟨true, true, [], 0⟩ (.onError true)
      = { (⟨true, true, [], 0⟩ : RecState) with
          isListening := false, listeningRef := false } ∧
    recStep ⟨true, true, [], 0⟩ (.onError false) = ⟨true, true, [], 0⟩ :=
  ⟨(c5_single_fixed_delay_retry ⟨true, true, [], 0⟩).1 rfl,
   (c5_single_fixed_delay_retry ⟨true, true, [], 0⟩).2.1,
   (c5_single_fixed_delay_retry ⟨true, true, [], 0⟩).2.2.1⟩

/-- C9: `decode (encode b) = b` — the base64 encoder and decoder of the service
module are mutually inverse on arbitrary byte arrays. -/
theorem c9_decode_encode_roundtrip (bytes : List Nat) (h : ∀ x ∈ bytes, x < 256) :
    decode (encode bytes) = bytes :=
  atob_btoa bytes h

/-- Witness for C9 on a concrete 4-byte array (one full group plus a padded
group). -/
theorem c9_decode_encode_roundtrip_witness :
    (∀ x ∈ [0, 77, 128, 255], x < 256) ∧
    decode (encode [0, 77, 128, 255]) = [0, 77, 128, 255] :=
  ⟨by decide, c9_decode_encode_roundtrip [0, 77, 128, 255] (by decide)⟩

/-- C10: `createBlob` converts each sample by truncating `s * 32768` and wrapping
modulo 2^16 with no clamping: the full-scale sample 1.0 wraps to -32768 rather
than saturating, while every sample in [-1, 1) maps to `trunc (s * 32768)`
unchanged; the whole conversion is the per-sample map, serialized and base64
encoded with the fixed PCM mime type. -/
theorem c10_createBlob_wrap :
    createBlobSample 1 = -32768 ∧
    (∀ s : ℚ, -1 ≤ s → s < 1 → createBlobSample s = jsTrunc (s * 32768)) ∧
    (∀ data : List ℚ,
        createBlob data
          = (encode (((data.map createBlobSample).map int16ToBytes).flatten),
             "audio/pcm;rate=16000")) := by
  refine ⟨?_, ?_, fun data => rfl⟩
  · have h1 : jsTrunc ((1 : ℚ) * 32768) = 32768 := by
      norm_num [jsTrunc]
    simp only [createBlobSample, h1, toInt16]
    norm_num
  · intro s h1 h2
    have hub : s * 32768 < 32768 := by nlinarith
    have hlb : (-32768 : ℚ) ≤ s * 32768 := by nlinarith
    have hbound : -32768 ≤ jsTrunc (s * 32768) ∧ jsTrunc (s * 32768) < 32768 := by
      unfold jsTrunc
      split
      · refine ⟨le_trans (by norm_num) (Int.floor_nonneg.2 (by assumption)), ?_⟩
        exact Int.floor_lt.2 (by exact_mod_cast hub)
      · constructor
        · have hc := Int.le_ceil (s * 32768)
          have : (-32768 : ℚ) ≤ (⌈s * 32768⌉ : ℚ) := le_trans hlb hc
          exact_mod_cast this
        · have : ⌈s * 32768⌉ ≤ 0 := Int.ceil_le.2 (by push_cast; linarith [not_le.1 (by assumption : ¬0 ≤ s * 32768)])
          omega
    obtain ⟨hb1, hb2⟩ := hbound
    unfold createBlobSample toInt16
    split <;> omega

/-- Witness for C10 at the concrete sample 1/2: no wrapping inside [-1, 1). -/
theorem c10_createBlob_wrap_witness :
    (-1 : ℚ) ≤ 1 / 2 ∧ (1 / 2 : ℚ) < 1 ∧
    createBlobSample (1 / 2) = jsTrunc ((1 / 2 : ℚ) * 32768) :=
  ⟨by norm_num, by norm_num,
   c10_createBlob_wrap.2.1 (1 / 2) (by norm_num) (by norm_num)⟩

end Forgy
